import Mathlib

/-! A verification development for a Go test-report aggregation plugin
(`parser.go` / `plugin.go`).  The program expands comma-separated glob
specifications into a deduplicated file list, folds per-test outcomes of
JUnit-style reports into running totals, and applies a date-bounded
quarantine policy to decide whether a CI step fails.

Shallow embedding conventions:
* Filesystem / network interactions (`expandTilde` + `os.UserHomeDir`,
  `zglob.Glob`, `gojunit.IngestFile`) are ambient effects; they are passed
  in as oracle functions (`expand`, `glob`, `ingest`).  A `none` result
  models the corresponding Go error, which the code logs and skips.
* `time.Now()` is passed in as an explicit `Instant` (a calendar day
  ordinal plus seconds elapsed within the day); `time.Parse("2006-01-02", s)`
  yields the midnight instant of the parsed day.
* Go's dynamically typed YAML values (`map[string]interface{}`,
  `[]interface{}`) are collapsed along the type assertions the code
  performs: a field that is absent or not a string becomes `none`; a list
  element that is not a map becomes `QItem.notMap`; a missing or
  non-slice `quarantine_tests` key becomes a `none` quarantine list.
* Go `int` counters only ever increase from zero, so they are `Nat`.
* Go `error` results are modelled as `Option String` carrying the
  formatted message (`none` = nil error).
-/

/-- The loop of Go `strings.Split(s, sep)` for a one-character separator:
walk the characters, cutting a new segment at every separator. -/
def splitOnCharAux (sep : Char) : List Char → List Char → List String
  | [], cur => [String.mk cur.reverse]
  | c :: rest, cur =>
    if c = sep then String.mk cur.reverse :: splitOnCharAux sep rest []
    else splitOnCharAux sep rest (c :: cur)

/-- Go `strings.Split(s, sep)` for a one-character separator: always
returns one more segment than there are separators; the empty string
yields `[""]`. -/
def splitOnChar (sep : Char) (s : String) : List String :=
  splitOnCharAux sep s.data []

/-- Decimal value of a digit string (the numeric part of Go's date-field
parsing; only applied after an all-digits check). -/
def digitsToNat (l : List Char) : Nat :=
  l.foldl (fun acc c => acc * 10 + (c.toNat - '0'.toNat)) 0

/-- Go `unicode.IsSpace`: the Unicode White_Space property, i.e.
U+0009..U+000D, U+0020, U+0085, U+00A0, U+1680, U+2000..U+200A, U+2028,
U+2029, U+202F, U+205F and U+3000. -/
def goIsSpace (c : Char) : Bool :=
  (9 ≤ c.toNat && c.toNat ≤ 13) || c.toNat = 32 || c.toNat = 0x85 ||
  c.toNat = 0xA0 || c.toNat = 0x1680 ||
  (0x2000 ≤ c.toNat && c.toNat ≤ 0x200A) || c.toNat = 0x2028 ||
  c.toNat = 0x2029 || c.toNat = 0x202F || c.toNat = 0x205F ||
  c.toNat = 0x3000

/-- Go `strings.TrimSpace`, modelled on the character list: drop leading
`unicode.IsSpace` characters, then drop trailing ones. -/
def trimSpace (s : String) : String :=
  String.mk (((s.data.dropWhile goIsSpace).reverse.dropWhile
      goIsSpace).reverse)

/-- Model of `getPaths` from parser.go: split the glob value on commas; a segment
that is empty *before* trimming is skipped; the remaining segments are
whitespace-trimmed and appended in order. -/
def getPaths (globVal : String) : List String :=
  (splitOnChar ',' globVal).foldl
    (fun paths val => if val = "" then paths else paths ++ [trimSpace val]) []

/-- The loop body of `uniqueItems`: walk the items, keeping an output
accumulator (`result`) and the set of already-seen items (Go uses a
`map[string]bool`; membership in a list models it). -/
def uniqueItemsGo : List String → List String → List String → List String
  | [], result, _ => result
  | item :: rest, result, seen =>
    if item ∈ seen then uniqueItemsGo rest result seen
    else uniqueItemsGo rest (result ++ [item]) (item :: seen)

/-- Model of `uniqueItems` from parser.go: first-seen-order deduplication. -/
def uniqueItems (items : List String) : List String :=
  uniqueItemsGo items [] []

/-- Spec-side definition ("deduplicates while preserving first-seen
order"): keep the head, then recursively deduplicate the tail with all
later copies of the head removed.  Used only to compare against
`uniqueItems`. -/
def dedupFirstSeen : List String → List String
  | [] => []
  | a :: t => a :: dedupFirstSeen (t.filter (fun x => x ≠ a))
termination_by l => l.length
decreasing_by
  simp only [List.length_cons]
  exact Nat.lt_succ_of_le (List.length_filter_le _ _)

/-- The concatenation loop of `getFiles`: for each input path, expand the
home directory (error ⇒ skip) and glob-expand it (error ⇒ skip), appending
all matches in order. -/
def allMatches (expand : String → Option String)
    (glob : String → Option (List String)) (paths : List String) :
    List String :=
  paths.foldl
    (fun files p =>
      match expand p with
      | none => files
      | some path =>
        match glob path with
        | none => files
        | some ms => files ++ ms) []

/-- Model of `getFiles` from parser.go: concatenate all glob matches, then
deduplicate. -/
def getFiles (expand : String → Option String)
    (glob : String → Option (List String)) (paths : List String) :
    List String :=
  uniqueItems (allMatches expand glob paths)

/-- An absolute point in time: a calendar-day ordinal plus the seconds
elapsed since that day's midnight.  `time.Now()` is such an instant;
`time.Parse("2006-01-02", _)` produces an instant with `sec = 0`. -/
structure Instant where
  day : Nat
  sec : Nat
deriving DecidableEq, Repr

/-- Go `time.Time.Before`: strict lexicographic comparison of instants. -/
def beforeInstant (a b : Instant) : Bool :=
  a.day < b.day || (a.day = b.day && a.sec < b.sec)

/-- Go `time.Time.After`: strict comparison, the mirror of `Before`. -/
def afterInstant (a b : Instant) : Bool :=
  beforeInstant b a

/-- Gregorian leap-year rule (as in Go's `time` package validation). -/
def isLeapYear (y : Nat) : Bool :=
  (y % 4 = 0 && y % 100 ≠ 0) || y % 400 = 0

/-- Number of days of month `m` of year `y`. -/
def daysInMonth (y m : Nat) : Nat :=
  if m = 2 then (if isLeapYear y then 29 else 28)
  else if m = 4 || m = 6 || m = 9 || m = 11 then 30
  else 31

/-- A nonempty all-digit string. -/
def allDigits (s : String) : Bool :=
  !s.isEmpty && s.data.all Char.isDigit

/-- Go `time.Parse("2006-01-02", s)`, reduced to what the program needs:
`some d` on a valid `YYYY-MM-DD` date, `none` on a malformed date.  The
fixed-width layout demands exactly four year digits and exactly two
month and day digits, and Go validates the month and day ranges.
The returned `d` is an order-faithful day ordinal: it increases strictly
with the (year, month, day) triple, which is all the program's strict
`Before`/`After` comparisons observe. -/
def parseDate (s : String) : Option Nat :=
  match splitOnChar '-' s with
  | [ys, ms, ds] =>
    if ys.length = 4 && allDigits ys &&
        ms.length = 2 && allDigits ms &&
        ds.length = 2 && allDigits ds then
      let y := digitsToNat ys.data
      let m := digitsToNat ms.data
      let d := digitsToNat ds.data
      if 1 ≤ m && m ≤ 12 && 1 ≤ d && d ≤ daysInMonth y m then
        some (y * 372 + (m - 1) * 31 + (d - 1))
      else none
    else none
  | _ => none

/-- One YAML quarantine entry, collapsed along the Go type assertions:
a field holds `some s` exactly when it is present *and* is a string. -/
structure QEntry where
  classname : Option String
  name : Option String
  start_date : Option String
  end_date : Option String
deriving DecidableEq, Repr

/-- One element of the `quarantine_tests` sequence: either a YAML map
(carrying a `QEntry`) or some other value, which every loop skips. -/
inductive QItem where
  | entry (e : QEntry)
  | notMap
deriving DecidableEq, Repr

/-- The loaded quarantine document, reduced to what the code reads:
`none` when the `quarantine_tests` key is missing or not a slice. -/
abbrev QList := Option (List QItem)

/-- The matching test of both loops: classname and name are present as
strings and `classname ++ "." ++ name` equals the test identifier. -/
def entryMatches (testIdentifier : String) (e : QEntry) : Bool :=
  match e.classname, e.name with
  | some c, some n => (c ++ "." ++ n) = testIdentifier
  | _, _ => false

/-- Lift `entryMatches` to a list element (non-map elements never match). -/
def itemMatches (testIdentifier : String) (it : QItem) : Bool :=
  match it with
  | .entry e => entryMatches testIdentifier e
  | .notMap => false

/-- Model of `isQuarantined` from parser.go: linear scan over `quarantine_tests`,
`true` at the first matching entry, `false` if the key is malformed or no
entry matches. -/
def isQuarantined (testIdentifier : String) (ql : QList) : Bool :=
  match ql with
  | none => false
  | some tests => tests.any (itemMatches testIdentifier)

/-- The date-window check of the matched branch of `isExpired`: both
bounds must be present as strings and parse; then the current instant is
compared strictly against the two midnight instants.  Any missing or
unparsable bound makes the branch fall through (`false` here ⇒ the loop
continues). -/
def entryExpired (now : Instant) (e : QEntry) : Bool :=
  match e.start_date, e.end_date with
  | some sd, some ed =>
    match parseDate sd, parseDate ed with
    | some st, some en =>
      beforeInstant now ⟨st, 0⟩ || afterInstant now ⟨en, 0⟩
    | _, _ => false
  | _, _ => false

/-- Model of `isExpired` from parser.go: scan `quarantine_tests`; return `true`
from the first matching entry whose (present, parsable) window excludes
the current instant; every other entry — non-matching, missing dates,
unparsable dates, or a window containing the instant — is skipped, and
the scan ends in `false`. -/
def isExpired (now : Instant) (testIdentifier : String) (ql : QList) :
    Bool :=
  match ql with
  | none => false
  | some tests =>
    tests.any (fun it =>
      match it with
      | .entry e => entryMatches testIdentifier e && entryExpired now e
      | .notMap => false)

/-- One parsed test case (name, classname and result status), the part of
`gojunit.Test` the program reads. -/
structure TestCase where
  classname : String
  name : String
  status : String
deriving DecidableEq, Repr

/-- The `TestStats` accumulator of plugin.go. -/
structure TestStats where
  TestCount : Nat
  FailCount : Nat
  PassCount : Nat
  SkippedCount : Nat
  ErrorCount : Nat
deriving DecidableEq, Repr

/-- The zero value `TestStats{}`. -/
def TestStats.zero : TestStats :=
  ⟨0, 0, 0, 0, 0⟩

/-- Componentwise aggregation of per-file stats into the running total. -/
def addStats (a b : TestStats) : TestStats :=
  ⟨a.TestCount + b.TestCount, a.FailCount + b.FailCount,
   a.PassCount + b.PassCount, a.SkippedCount + b.SkippedCount,
   a.ErrorCount + b.ErrorCount⟩

/-- The per-test switch of `ParseTests`: count the test, then bump the
counter matching its status (an unknown status bumps nothing else). -/
def tallyTest (st : TestStats) (t : TestCase) : TestStats :=
  let st := { st with TestCount := st.TestCount + 1 }
  if t.status = "passed" then { st with PassCount := st.PassCount + 1 }
  else if t.status = "failed" then { st with FailCount := st.FailCount + 1 }
  else if t.status = "skipped" then
    { st with SkippedCount := st.SkippedCount + 1 }
  else if t.status = "error" then { st with ErrorCount := st.ErrorCount + 1 }
  else st

/-- The per-file double loop of `ParseTests` (suites, then tests). -/
def fileStats (suites : List (List TestCase)) : TestStats :=
  suites.foldl (fun acc su => su.foldl tallyTest acc) TestStats.zero

/-- The file loop of `ParseTests`: ingest each file (parse error ⇒ skip
the whole file) and fold its stats into the running total. -/
def aggregateFiles (ingest : String → Option (List (List TestCase)))
    (files : List String) : TestStats :=
  files.foldl
    (fun acc f =>
      match ingest f with
      | none => acc
      | some suites => addStats acc (fileStats suites)) TestStats.zero

/-- The message of `ParseTests`'s failing verdict:
`"found %d failed tests and %d errors"`. -/
def parseTestsMsg (failCount errorCount : Nat) : String :=
  "found " ++ toString failCount ++ " failed tests and " ++
    toString errorCount ++ " errors"

/-- Model of `ParseTests` from parser.go: resolve files (empty ⇒ zero stats, nil
error), aggregate, and fail iff `FailCount > 0 || ErrorCount > 0`. -/
def ParseTests (expand : String → Option String)
    (glob : String → Option (List String))
    (ingest : String → Option (List (List TestCase)))
    (paths : List String) : TestStats × Option String :=
  let files := getFiles expand glob paths
  if files = [] then (TestStats.zero, none)
  else
    let stats := aggregateFiles ingest files
    if 0 < stats.FailCount ∨ 0 < stats.ErrorCount then
      (stats, some (parseTestsMsg stats.FailCount stats.ErrorCount))
    else (stats, none)

/-- The per-test switch of `ParseTestsWithQuarantine`.  The accumulator is
the per-file stats together with the run-wide `nonQuarantinedFailures`
and `expiredTests` counters.  Only a `failed` test is quarantine-checked;
an `error` test only bumps `ErrorCount` (the Go source has the line
`nonQuarantinedFailures++` for errors commented out). -/
def qTally (now : Instant) (ql : QList) (acc : TestStats × Nat × Nat)
    (t : TestCase) : TestStats × Nat × Nat :=
  let (fs, nq, ex) := acc
  let fs := { fs with TestCount := fs.TestCount + 1 }
  let testIdentifier := t.classname ++ "." ++ t.name
  if t.status = "passed" then ({ fs with PassCount := fs.PassCount + 1 }, nq, ex)
  else if t.status = "failed" then
    let (nq, ex) :=
      if !(isQuarantined testIdentifier ql) then (nq + 1, ex)
      else if isExpired now testIdentifier ql then (nq, ex + 1)
      else (nq, ex)
    ({ fs with FailCount := fs.FailCount + 1 }, nq, ex)
  else if t.status = "skipped" then
    ({ fs with SkippedCount := fs.SkippedCount + 1 }, nq, ex)
  else if t.status = "error" then
    ({ fs with ErrorCount := fs.ErrorCount + 1 }, nq, ex)
  else (fs, nq, ex)

/-- The file loop of `ParseTestsWithQuarantine`: per file, fold the tests
with `qTally` starting from zero per-file stats (the bucket counters are
threaded through the whole run), then aggregate the per-file stats. -/
def qAggregate (ingest : String → Option (List (List TestCase)))
    (now : Instant) (ql : QList) (files : List String) :
    TestStats × Nat × Nat :=
  files.foldl
    (fun acc f =>
      match ingest f with
      | none => acc
      | some suites =>
        let (stats, nq, ex) := acc
        let (fstats, nq, ex) :=
          suites.foldl (fun a su => su.foldl (qTally now ql) a)
            (TestStats.zero, nq, ex)
        (addStats stats fstats, nq, ex)) (TestStats.zero, 0, 0)

/-- The message of `ParseTestsWithQuarantine`'s failing verdict:
`"found %d non-quarantined failed tests and %d expired tests"`. -/
def qMsg (nonQuarantinedFailures expiredTests : Nat) : String :=
  "found " ++ toString nonQuarantinedFailures ++
    " non-quarantined failed tests and " ++ toString expiredTests ++
    " expired tests"

/-- Model of `ParseTestsWithQuarantine` from parser.go: resolve files (empty ⇒
zero stats, nil error), aggregate with quarantine bucketing, and fail iff
`nonQuarantinedFailures > 0 || expiredTests > 0`. -/
def ParseTestsWithQuarantine (expand : String → Option String)
    (glob : String → Option (List String))
    (ingest : String → Option (List (List TestCase)))
    (now : Instant) (paths : List String) (ql : QList) :
    TestStats × Option String :=
  let files := getFiles expand glob paths
  if files = [] then (TestStats.zero, none)
  else
    let r := qAggregate ingest now ql files
    if 0 < r.2.1 ∨ 0 < r.2.2 then
      (r.1, some (qMsg r.2.1 r.2.2))
    else (r.1, none)

/-- Model of `isURL` from parser.go: `len(source) > 4 && source[:4] == "http"`
(byte indexing; identical to character indexing on the ASCII strings the
check distinguishes). -/
def isURL (source : String) : Bool :=
  4 < source.length && source.take 4 = "http"

/-- Which branch `LoadYAML` takes for a given source string. -/
inductive LoadRoute where
  | httpFetch
  | localFile
deriving DecidableEq, Repr

/-- The dispatch of `LoadYAML`: fetch over HTTP when `isURL` holds,
otherwise read a local file. -/
def loadYAMLRoute (source : String) : LoadRoute :=
  if isURL source then .httpFetch else .localFile

/-- A test case whose status is one of the four outcomes the switch
statements recognise. -/
def statusKnown (t : TestCase) : Bool :=
  t.status = "passed" || t.status = "failed" || t.status = "skipped" ||
    t.status = "error"

/-- The spec's counter invariant:
`testCount = passCount + failCount + skippedCount + errorCount`. -/
def statsBalanced (st : TestStats) : Prop :=
  st.TestCount =
    st.PassCount + st.FailCount + st.SkippedCount + st.ErrorCount

/-- A string with neither leading nor trailing Go whitespace. -/
def noEdgeWhitespace (m : String) : Prop :=
  (∀ c ∈ m.data.head?, goIsSpace c = false) ∧
  (∀ c ∈ m.data.getLast?, goIsSpace c = false)

/-! ## Helper lemmas -/

theorem head?_dropWhile_false {α : Type} (p : α → Bool) (l : List α) :
    ∀ x ∈ (l.dropWhile p).head?, p x = false := by
  intro x hx
  rw [Option.mem_def] at hx
  have h := List.head?_dropWhile_not p l
  rw [hx] at h
  exact h

theorem getLast?_of_suffix {α : Type} {l₁ l₂ : List α} (h : l₁ <:+ l₂)
    (hne : l₁ ≠ []) : l₁.getLast? = l₂.getLast? := by
  obtain ⟨t, rfl⟩ := h
  rw [List.getLast?_append]
  cases hl : l₁.getLast? with
  | none => exact absurd (List.getLast?_eq_none_iff.mp hl) hne
  | some x => simp [Option.or]

theorem trimmed_head_false {α : Type} (p : α → Bool) (l : List α) :
    ∀ x ∈ (((l.dropWhile p).reverse.dropWhile p).reverse).head?, p x = false := by
  intro x hx
  rw [List.head?_reverse, Option.mem_def] at hx
  have hCne : ((l.dropWhile p).reverse.dropWhile p) ≠ [] := by
    intro h
    rw [h] at hx
    simp at hx
  have h1 := getLast?_of_suffix
    (List.dropWhile_suffix (l := (l.dropWhile p).reverse) p) hCne
  rw [h1, List.getLast?_reverse] at hx
  exact head?_dropWhile_false p l x (Option.mem_def.mpr hx)

theorem trimmed_last_false {α : Type} (p : α → Bool) (l : List α) :
    ∀ x ∈ (((l.dropWhile p).reverse.dropWhile p).reverse).getLast?,
      p x = false := by
  intro x hx
  rw [List.getLast?_reverse] at hx
  exact head?_dropWhile_false p _ x hx

theorem trimSpace_noEdge (v : String) : noEdgeWhitespace (trimSpace v) := by
  constructor
  · exact fun c hc => trimmed_head_false goIsSpace v.data c hc
  · exact fun c hc => trimmed_last_false goIsSpace v.data c hc

theorem getPaths_foldl (l : List String) : ∀ acc : List String,
    l.foldl (fun paths val => if val = "" then paths
        else paths ++ [trimSpace val]) acc
      = acc ++ (l.filter (fun v => v ≠ "")).map trimSpace := by
  induction l with
  | nil => intro acc; simp
  | cons a t ih =>
    intro acc
    by_cases h : a = ""
    · simp [h, ih]
    · simp [h, ih]

theorem getPaths_eq (s : String) :
    getPaths s
      = ((splitOnChar ',' s).filter (fun v => v ≠ "")).map trimSpace := by
  unfold getPaths
  rw [getPaths_foldl]
  simp

theorem dedupFirstSeen_cons (a : String) (t : List String) :
    dedupFirstSeen (a :: t)
      = a :: dedupFirstSeen (t.filter (fun x => x ≠ a)) := by
  rw [dedupFirstSeen.eq_def]

theorem uniqueItemsGo_eq (l : List String) : ∀ res seen : List String,
    uniqueItemsGo l res seen
      = res ++ dedupFirstSeen (l.filter (fun x => x ∉ seen)) := by
  induction l with
  | nil => intro res seen; simp [uniqueItemsGo, dedupFirstSeen]
  | cons a t ih =>
    intro res seen
    by_cases h : a ∈ seen
    · have h1 : uniqueItemsGo (a :: t) res seen = uniqueItemsGo t res seen := by
        simp [uniqueItemsGo, h]
      have h2 : (a :: t).filter (fun x => x ∉ seen)
          = t.filter (fun x => x ∉ seen) := by
        rw [List.filter_cons]; simp [h]
      rw [h1, h2, ih]
    · have h1 : uniqueItemsGo (a :: t) res seen
          = uniqueItemsGo t (res ++ [a]) (a :: seen) := by
        simp [uniqueItemsGo, h]
      have h2 : (a :: t).filter (fun x => x ∉ seen)
          = a :: t.filter (fun x => x ∉ seen) := by
        rw [List.filter_cons]; simp [h]
      have h3 : (t.filter (fun x => x ∉ seen)).filter (fun x => x ≠ a)
          = t.filter (fun x => x ∉ (a :: seen)) := by
        rw [List.filter_filter]
        apply List.filter_congr
        intro x _
        by_cases hxa : x = a
        · simp [hxa]
        · simp [hxa, List.mem_cons]
      rw [h1, ih, h2, dedupFirstSeen_cons, h3, List.append_assoc,
        List.singleton_append]

theorem uniqueItems_eq_dedupFirstSeen (l : List String) :
    uniqueItems l = dedupFirstSeen l := by
  unfold uniqueItems
  rw [uniqueItemsGo_eq]
  rw [show l.filter (fun x => x ∉ ([] : List String)) = l from
    List.filter_eq_self.mpr (by intro a _; simp)]
  simp

theorem dedupFirstSeen_sublist_aux :
    ∀ (n : Nat) (l : List String), l.length ≤ n →
      (dedupFirstSeen l).Sublist l := by
  intro n
  induction n with
  | zero =>
    intro l hl
    rw [List.length_eq_zero.mp (Nat.le_zero.mp hl)]
    simp [dedupFirstSeen]
  | succ n ih =>
    intro l hl
    cases l with
    | nil => simp [dedupFirstSeen]
    | cons a t =>
      rw [dedupFirstSeen_cons]
      apply List.Sublist.cons₂
      exact List.Sublist.trans
        (ih _ (Nat.le_trans (List.length_filter_le _ _)
          (Nat.le_of_succ_le_succ hl)))
        (List.filter_sublist t)

theorem dedupFirstSeen_sublist (l : List String) :
    (dedupFirstSeen l).Sublist l :=
  dedupFirstSeen_sublist_aux l.length l (Nat.le_refl _)

theorem mem_dedupFirstSeen_aux :
    ∀ (n : Nat) (l : List String), l.length ≤ n →
      ∀ x, x ∈ dedupFirstSeen l ↔ x ∈ l := by
  intro n
  induction n with
  | zero =>
    intro l hl x
    rw [List.length_eq_zero.mp (Nat.le_zero.mp hl)]
    simp [dedupFirstSeen]
  | succ n ih =>
    intro l hl x
    cases l with
    | nil => simp [dedupFirstSeen]
    | cons a t =>
      rw [dedupFirstSeen_cons]
      rw [List.mem_cons, List.mem_cons]
      rw [ih _ (Nat.le_trans (List.length_filter_le _ _)
        (Nat.le_of_succ_le_succ hl))]
      rw [List.mem_filter]
      by_cases hxa : x = a
      · simp [hxa]
      · simp [hxa]

theorem mem_dedupFirstSeen (l : List String) (x : String) :
    x ∈ dedupFirstSeen l ↔ x ∈ l :=
  mem_dedupFirstSeen_aux l.length l (Nat.le_refl _) x

theorem dedupFirstSeen_nodup_aux :
    ∀ (n : Nat) (l : List String), l.length ≤ n →
      (dedupFirstSeen l).Nodup := by
  intro n
  induction n with
  | zero =>
    intro l hl
    rw [List.length_eq_zero.mp (Nat.le_zero.mp hl)]
    simp [dedupFirstSeen]
  | succ n ih =>
    intro l hl
    cases l with
    | nil => simp [dedupFirstSeen]
    | cons a t =>
      rw [dedupFirstSeen_cons, List.nodup_cons]
      constructor
      · intro hmem
        rw [mem_dedupFirstSeen, List.mem_filter] at hmem
        simp at hmem
      · exact ih _ (Nat.le_trans (List.length_filter_le _ _)
          (Nat.le_of_succ_le_succ hl))

theorem dedupFirstSeen_nodup (l : List String) :
    (dedupFirstSeen l).Nodup :=
  dedupFirstSeen_nodup_aux l.length l (Nat.le_refl _)

theorem tallyTest_balanced (t : TestCase) (st : TestStats)
    (h : statusKnown t = true) (hb : statsBalanced st) :
    statsBalanced (tallyTest st t) := by
  unfold statsBalanced at hb ⊢
  by_cases h1 : t.status = "passed"
  · simp [tallyTest, h1]; omega
  · by_cases h2 : t.status = "failed"
    · simp [tallyTest, h1, h2]; omega
    · by_cases h3 : t.status = "skipped"
      · simp [tallyTest, h1, h2, h3]; omega
      · by_cases h4 : t.status = "error"
        · simp [tallyTest, h1, h2, h3, h4]; omega
        · exfalso
          simp [statusKnown, h1, h2, h3, h4] at h

theorem foldl_tallyTest_balanced (su : List TestCase) :
    ∀ st : TestStats, (∀ t ∈ su, statusKnown t = true) → statsBalanced st →
      statsBalanced (su.foldl tallyTest st) := by
  induction su with
  | nil => intro st _ hb; exact hb
  | cons t rest ih =>
    intro st h hb
    rw [List.foldl_cons]
    exact ih _ (fun x hx => h x (List.mem_cons_of_mem t hx))
      (tallyTest_balanced t st (h t (List.mem_cons_self t rest)) hb)

theorem fileStats_balanced (suites : List (List TestCase))
    (h : ∀ su ∈ suites, ∀ t ∈ su, statusKnown t = true) :
    statsBalanced (fileStats suites) := by
  unfold fileStats
  have main : ∀ (ss : List (List TestCase)) (st : TestStats),
      (∀ su ∈ ss, ∀ t ∈ su, statusKnown t = true) → statsBalanced st →
      statsBalanced (ss.foldl (fun acc su => su.foldl tallyTest acc) st) := by
    intro ss
    induction ss with
    | nil => intro st _ hb; exact hb
    | cons su rest ih =>
      intro st hss hb
      rw [List.foldl_cons]
      exact ih _ (fun x hx => hss x (List.mem_cons_of_mem su hx))
        (foldl_tallyTest_balanced su st (hss su (List.mem_cons_self su rest)) hb)
  exact main suites TestStats.zero h (by simp [statsBalanced, TestStats.zero])

theorem addStats_balanced (a b : TestStats) (ha : statsBalanced a)
    (hb : statsBalanced b) : statsBalanced (addStats a b) := by
  unfold statsBalanced at ha hb ⊢
  simp [addStats]
  omega

theorem aggregateFiles_balanced
    (ingest : String → Option (List (List TestCase))) (files : List String)
    (h : ∀ f ∈ files, ∀ suites, ingest f = some suites →
      ∀ su ∈ suites, ∀ t ∈ su, statusKnown t = true) :
    statsBalanced (aggregateFiles ingest files) := by
  unfold aggregateFiles
  have main : ∀ (fs : List String) (acc : TestStats),
      (∀ f ∈ fs, ∀ suites, ingest f = some suites →
        ∀ su ∈ suites, ∀ t ∈ su, statusKnown t = true) →
      statsBalanced acc →
      statsBalanced (fs.foldl (fun acc f =>
        match ingest f with
        | none => acc
        | some suites => addStats acc (fileStats suites)) acc) := by
    intro fs
    induction fs with
    | nil => intro acc _ hb; exact hb
    | cons f rest ih =>
      intro acc hfs hb
      rw [List.foldl_cons]
      apply ih _ (fun x hx => hfs x (List.mem_cons_of_mem f hx))
      cases hing : ingest f with
      | none => simpa [hing] using hb
      | some suites =>
        simp only [hing]
        exact addStats_balanced acc (fileStats suites) hb
          (fileStats_balanced suites
            (hfs f (List.mem_cons_self f rest) suites hing))
  exact main files TestStats.zero h (by simp [statsBalanced, TestStats.zero])

theorem parseTests_run (expand : String → Option String)
    (glob : String → Option (List String))
    (ingest : String → Option (List (List TestCase)))
    (paths : List String) :
    (ParseTests expand glob ingest paths).1
        = aggregateFiles ingest (getFiles expand glob paths) ∧
    (ParseTests expand glob ingest paths).2
        = (if 0 < (aggregateFiles ingest (getFiles expand glob paths)).FailCount
              ∨ 0 < (aggregateFiles ingest (getFiles expand glob paths)).ErrorCount
           then some (parseTestsMsg
              (aggregateFiles ingest (getFiles expand glob paths)).FailCount
              (aggregateFiles ingest (getFiles expand glob paths)).ErrorCount)
           else none) := by
  unfold ParseTests
  by_cases h : getFiles expand glob paths = []
  · rw [h]
    simp [aggregateFiles, TestStats.zero]
  · simp only [if_neg h]
    constructor
    · split <;> rfl
    · split <;> rfl

theorem parseTestsWithQuarantine_run (expand : String → Option String)
    (glob : String → Option (List String))
    (ingest : String → Option (List (List TestCase)))
    (now : Instant) (paths : List String) (ql : QList) :
    (ParseTestsWithQuarantine expand glob ingest now paths ql).1
        = (qAggregate ingest now ql (getFiles expand glob paths)).1 ∧
    (ParseTestsWithQuarantine expand glob ingest now paths ql).2
        = (if 0 < (qAggregate ingest now ql (getFiles expand glob paths)).2.1
              ∨ 0 < (qAggregate ingest now ql (getFiles expand glob paths)).2.2
           then some (qMsg
              (qAggregate ingest now ql (getFiles expand glob paths)).2.1
              (qAggregate ingest now ql (getFiles expand glob paths)).2.2)
           else none) := by
  unfold ParseTestsWithQuarantine
  by_cases h : getFiles expand glob paths = []
  · rw [h]
    simp [qAggregate, TestStats.zero]
  · simp only [if_neg h]
    constructor
    · split <;> rfl
    · split <;> rfl

/-! ## Claim theorems -/

/-- C10: `LoadYAML` classifies its source as an HTTP URL exactly when the
source is longer than four characters and starts with `"http"`; a local
path such as `"httpreports/quarantine.yaml"` is therefore fetched over
the network, while the four-character string `"http"` itself is treated
as a local path. -/
theorem loadYAML_route_spec :
    (∀ source : String,
      loadYAMLRoute source = LoadRoute.httpFetch
        ↔ (4 < source.length ∧ source.take 4 = "http")) ∧
    loadYAMLRoute "httpreports/quarantine.yaml" = LoadRoute.httpFetch ∧
    loadYAMLRoute "http" = LoadRoute.localFile := by
  refine ⟨?_, by decide, by decide⟩
  intro source
  unfold loadYAMLRoute isURL
  by_cases h1 : 4 < source.length
  · by_cases h2 : source.take 4 = "http"
    · simp [h1, h2]
    · simp [h1, h2]
  · simp [h1]

/-- C4: in non-quarantine mode, `ParseTests` returns a failing verdict
(a non-nil error) iff the aggregated `FailCount` or `ErrorCount` is
positive, and the failing message carries those two totals. -/
theorem parseTests_verdict_iff (expand : String → Option String)
    (glob : String → Option (List String))
    (ingest : String → Option (List (List TestCase)))
    (paths : List String) :
    ((ParseTests expand glob ingest paths).2
        = some (parseTestsMsg (ParseTests expand glob ingest paths).1.FailCount
            (ParseTests expand glob ingest paths).1.ErrorCount)
      ↔ 0 < (ParseTests expand glob ingest paths).1.FailCount
          ∨ 0 < (ParseTests expand glob ingest paths).1.ErrorCount) ∧
    ((ParseTests expand glob ingest paths).2 = none
      ↔ (ParseTests expand glob ingest paths).1.FailCount = 0
          ∧ (ParseTests expand glob ingest paths).1.ErrorCount = 0) := by
  obtain ⟨h1, h2⟩ := parseTests_run expand glob ingest paths
  rw [h1, h2]
  by_cases hc : 0 < (aggregateFiles ingest (getFiles expand glob paths)).FailCount
      ∨ 0 < (aggregateFiles ingest (getFiles expand glob paths)).ErrorCount
  · constructor
    · simp [hc]
    · simp [hc]
      omega
  · constructor
    · simp [hc]
    · simp [hc]
      omega

/-- C2: in quarantine mode, `ParseTestsWithQuarantine` returns a failing
verdict (a non-nil error) iff the run-wide count of non-quarantined
failures or the count of expired quarantined tests is positive; the
failing message carries both counts, and in particular a positive
`ErrorCount` with both bucket counts zero yields a passing verdict. -/
theorem parseTestsWithQuarantine_verdict_iff (expand : String → Option String)
    (glob : String → Option (List String))
    (ingest : String → Option (List (List TestCase)))
    (now : Instant) (paths : List String) (ql : QList) :
    ((ParseTestsWithQuarantine expand glob ingest now paths ql).2
        = some (qMsg
            (qAggregate ingest now ql (getFiles expand glob paths)).2.1
            (qAggregate ingest now ql (getFiles expand glob paths)).2.2)
      ↔ 0 < (qAggregate ingest now ql (getFiles expand glob paths)).2.1
          ∨ 0 < (qAggregate ingest now ql (getFiles expand glob paths)).2.2) ∧
    ((ParseTestsWithQuarantine expand glob ingest now paths ql).2 = none
      ↔ (qAggregate ingest now ql (getFiles expand glob paths)).2.1 = 0
          ∧ (qAggregate ingest now ql (getFiles expand glob paths)).2.2 = 0) := by
  obtain ⟨h1, h2⟩ := parseTestsWithQuarantine_run expand glob ingest now paths ql
  rw [h2]
  by_cases hc : 0 < (qAggregate ingest now ql (getFiles expand glob paths)).2.1
      ∨ 0 < (qAggregate ingest now ql (getFiles expand glob paths)).2.2
  · constructor
    · simp [hc]
    · simp [hc]
      omega
  · constructor
    · simp [hc]
    · simp [hc]
      omega

/-- C8: when the resolved file list is empty, both entry points return
all-zero totals and a nil error, for every path specification and every
quarantine list. -/
theorem emptyFileList_pass (expand : String → Option String)
    (glob : String → Option (List String))
    (ingest : String → Option (List (List TestCase)))
    (now : Instant) (paths : List String) (ql : QList)
    (h : getFiles expand glob paths = []) :
    ParseTests expand glob ingest paths = (TestStats.zero, none) ∧
    ParseTestsWithQuarantine expand glob ingest now paths ql
      = (TestStats.zero, none) := by
  unfold ParseTests ParseTestsWithQuarantine
  rw [h]
  simp

/-- Witness for C8 at a concrete glob oracle that matches nothing. -/
theorem emptyFileList_pass_witness :
    getFiles some (fun _ => none) ["reports/*.xml"] = [] ∧
    ParseTests some (fun _ => none) (fun _ => none) ["reports/*.xml"]
      = (TestStats.zero, none) ∧
    ParseTestsWithQuarantine some (fun _ => none) (fun _ => none) ⟨0, 0⟩
      ["reports/*.xml"] none = (TestStats.zero, none) := by
  refine ⟨rfl, ?_, ?_⟩
  · exact (emptyFileList_pass some (fun _ => none) (fun _ => none) ⟨0, 0⟩
      ["reports/*.xml"] none rfl).1
  · exact (emptyFileList_pass some (fun _ => none) (fun _ => none) ⟨0, 0⟩
      ["reports/*.xml"] none rfl).2

/-- C7: the file list returned by `getFiles` has no duplicate paths, even
for overlapping glob patterns, and equals the first-seen-order
deduplication of the concatenated matches (in particular it is a sublist
of them, so the surviving occurrences keep their order). -/
theorem getFiles_nodup_firstSeen (expand : String → Option String)
    (glob : String → Option (List String)) (paths : List String) :
    (getFiles expand glob paths).Nodup ∧
    getFiles expand glob paths
      = dedupFirstSeen (allMatches expand glob paths) ∧
    (getFiles expand glob paths).Sublist (allMatches expand glob paths) := by
  unfold getFiles
  rw [uniqueItems_eq_dedupFirstSeen]
  exact ⟨dedupFirstSeen_nodup _, rfl, dedupFirstSeen_sublist _⟩

/-- Witness for C7 at overlapping concrete glob results. -/
theorem getFiles_nodup_firstSeen_witness :
    (getFiles some (fun _ => some ["out/a.xml", "out/b.xml", "out/a.xml"])
      ["g1", "g2"]).Nodup :=
  (getFiles_nodup_firstSeen some
    (fun _ => some ["out/a.xml", "out/b.xml", "out/a.xml"]) ["g1", "g2"]).1

/-- C6 counterexample: a whitespace-only segment survives the empty-string
check (which runs before trimming) and is returned as the empty string,
so `getPaths` can return an empty segment. -/
theorem getPaths_empty_segment_cex :
    getPaths "a, ,b" = ["a", "", "b"] ∧ "" ∈ getPaths "a, ,b" := by
  constructor
  · decide
  · decide

/-- C6 (amended): `getPaths` splits on commas, drops the segments that
are empty before trimming, trims the remaining segments and preserves
their order; every returned segment is whitespace-free at both ends, but
a whitespace-only input segment is returned as the empty string; the
empty input yields the empty list. -/
theorem getPaths_split_trim_spec (s : String) :
    getPaths s
      = ((splitOnChar ',' s).filter (fun v => v ≠ "")).map trimSpace ∧
    (∀ seg ∈ getPaths s, noEdgeWhitespace seg) ∧
    getPaths "" = [] := by
  refine ⟨getPaths_eq s, ?_, by decide⟩
  intro seg hseg
  rw [getPaths_eq] at hseg
  obtain ⟨v, _, rfl⟩ := List.mem_map.mp hseg
  exact trimSpace_noEdge v

/-- Witness for C6 at a concrete glob specification. -/
theorem getPaths_split_trim_spec_witness :
    getPaths " x ,y,"
      = ((splitOnChar ',' " x ,y,").filter (fun v => v ≠ "")).map trimSpace
      ∧ noEdgeWhitespace "x" :=
  ⟨(getPaths_split_trim_spec " x ,y,").1,
   (getPaths_split_trim_spec " x ,y,").2.1 "x" (by decide)⟩

/-- C5: over any run whose successfully ingested files contain only the
four recognised outcomes, the aggregated totals satisfy
`TestCount = PassCount + FailCount + SkippedCount + ErrorCount`. -/
theorem parseTests_count_balance (expand : String → Option String)
    (glob : String → Option (List String))
    (ingest : String → Option (List (List TestCase)))
    (paths : List String)
    (h : ∀ f ∈ getFiles expand glob paths, ∀ suites,
      ingest f = some suites → ∀ su ∈ suites, ∀ t ∈ su,
        statusKnown t = true) :
    (ParseTests expand glob ingest paths).1.TestCount
      = (ParseTests expand glob ingest paths).1.PassCount
        + (ParseTests expand glob ingest paths).1.FailCount
        + (ParseTests expand glob ingest paths).1.SkippedCount
        + (ParseTests expand glob ingest paths).1.ErrorCount := by
  rw [(parseTests_run expand glob ingest paths).1]
  exact aggregateFiles_balanced ingest (getFiles expand glob paths) h

/-- Witness for C5 at a concrete one-file run with all four outcomes. -/
theorem parseTests_count_balance_witness :
    (ParseTests some (fun _ => some ["f.xml"])
        (fun _ => some [[⟨"c", "a", "passed"⟩, ⟨"c", "b", "failed"⟩,
          ⟨"c", "d", "skipped"⟩, ⟨"c", "e", "error"⟩]]) ["p"]).1.TestCount
      = (ParseTests some (fun _ => some ["f.xml"])
        (fun _ => some [[⟨"c", "a", "passed"⟩, ⟨"c", "b", "failed"⟩,
          ⟨"c", "d", "skipped"⟩, ⟨"c", "e", "error"⟩]]) ["p"]).1.PassCount
        + (ParseTests some (fun _ => some ["f.xml"])
        (fun _ => some [[⟨"c", "a", "passed"⟩, ⟨"c", "b", "failed"⟩,
          ⟨"c", "d", "skipped"⟩, ⟨"c", "e", "error"⟩]]) ["p"]).1.FailCount
        + (ParseTests some (fun _ => some ["f.xml"])
        (fun _ => some [[⟨"c", "a", "passed"⟩, ⟨"c", "b", "failed"⟩,
          ⟨"c", "d", "skipped"⟩, ⟨"c", "e", "error"⟩]]) ["p"]).1.SkippedCount
        + (ParseTests some (fun _ => some ["f.xml"])
        (fun _ => some [[⟨"c", "a", "passed"⟩, ⟨"c", "b", "failed"⟩,
          ⟨"c", "d", "skipped"⟩, ⟨"c", "e", "error"⟩]]) ["p"]).1.ErrorCount := by
  apply parseTests_count_balance
  intro f hf suites hs
  cases hs
  decide

/-- C1 counterexample: with `end_date = "2024-03-05"` (day ordinal
752994) and the current instant at 01:00 on that very day, the current
date equals `end_date`, yet `isExpired` returns `true` — the end
boundary is not inclusive, because `time.Now()` carries a time-of-day
that lies strictly after the end date's midnight. -/
theorem isExpired_end_boundary_cex :
    parseDate "2024-03-05" = some 752994 ∧
    (Instant.mk 752994 3600).day = 752994 ∧
    isExpired ⟨752994, 3600⟩ "com.example.Foo.TestBar"
      (some [QItem.entry ⟨some "com.example.Foo", some "TestBar",
        some "2024-03-01", some "2024-03-05"⟩]) = true := by
  refine ⟨by decide, rfl, by decide⟩

/-- C1 (amended): for a matched entry with both dates present and
parsable, `isExpired` is `true` iff the current *instant* is strictly
before the start date's midnight or strictly after the end date's
midnight.  Consequently the start-date day is effectively inclusive (an
instant on that day is never before its midnight), while an entry whose
`end_date` equals the current day is already expired at any time-of-day
strictly after midnight. -/
theorem isExpired_strict_instant_bounds (now : Instant) (c n sd ed : String)
    (s e : Nat) (hs : parseDate sd = some s) (he : parseDate ed = some e) :
    isExpired now (c ++ "." ++ n)
        (some [QItem.entry ⟨some c, some n, some sd, some ed⟩])
      = (beforeInstant now ⟨s, 0⟩ || afterInstant now ⟨e, 0⟩) ∧
    (now.day = s → beforeInstant now ⟨s, 0⟩ = false) ∧
    (now.day = e → 0 < now.sec →
      isExpired now (c ++ "." ++ n)
        (some [QItem.entry ⟨some c, some n, some sd, some ed⟩]) = true) := by
  have hmain : isExpired now (c ++ "." ++ n)
      (some [QItem.entry ⟨some c, some n, some sd, some ed⟩])
      = (beforeInstant now ⟨s, 0⟩ || afterInstant now ⟨e, 0⟩) := by
    simp [isExpired, entryMatches, entryExpired, hs, he]
  refine ⟨hmain, ?_, ?_⟩
  · intro hday
    simp [beforeInstant, hday]
  · intro hday hsec
    rw [hmain]
    have hafter : afterInstant now ⟨e, 0⟩ = true := by
      simp [afterInstant, beforeInstant, hday, hsec]
    simp [hafter]

/-- Witness for C1's amended theorem: an entry ending on the current day
is expired at one second past midnight. -/
theorem isExpired_strict_instant_bounds_witness :
    isExpired ⟨753021, 1⟩ ("pkg.Cls" ++ "." ++ "TestX")
      (some [QItem.entry ⟨some "pkg.Cls", some "TestX",
        some "2024-03-20", some "2024-04-01"⟩]) = true :=
  (isExpired_strict_instant_bounds ⟨753021, 1⟩ "pkg.Cls" "TestX"
    "2024-03-20" "2024-04-01" 753009 753021 (by decide) (by decide)).2.2
    rfl (by decide)

/-- C3 counterexample: a run whose only test has outcome `error` (so
every failed test — there are none — is actively quarantined) yields a
*passing* verdict from `ParseTestsWithQuarantine`, even though
`ErrorCount = 1`; errors do not trigger failure in quarantine mode. -/
theorem quarantine_error_outcome_cex :
    ParseTestsWithQuarantine some (fun _ => some ["f.xml"])
        (fun _ => some [[⟨"c", "n", "error"⟩]]) ⟨0, 0⟩ ["p"] none
      = (⟨1, 0, 0, 0, 1⟩, none) := by
  decide

/-- C3 (amended): in quarantine mode every `error`-outcome test is
counted in `ErrorCount` and is never checked against the quarantine list
(the tally step ignores the quarantine list entirely for errors), but it
does NOT count against the build: whenever the non-quarantined-failure
and expired-test buckets are both empty — in particular when all failed
tests are actively quarantined — the verdict passes regardless of how
many errors occurred. -/
theorem quarantine_error_counted_not_failing :
    (∀ (now : Instant) (ql : QList) (fs : TestStats) (nq ex : Nat)
        (t : TestCase), t.status = "error" →
      qTally now ql (fs, nq, ex) t
        = ({ fs with
              TestCount := fs.TestCount + 1
              ErrorCount := fs.ErrorCount + 1 }, nq, ex)) ∧
    (∀ (expand : String → Option String)
        (glob : String → Option (List String))
        (ingest : String → Option (List (List TestCase)))
        (now : Instant) (paths : List String) (ql : QList),
      (qAggregate ingest now ql (getFiles expand glob paths)).2.1 = 0 →
      (qAggregate ingest now ql (getFiles expand glob paths)).2.2 = 0 →
      (ParseTestsWithQuarantine expand glob ingest now paths ql).2 = none) := by
  constructor
  · intro now ql fs nq ex t ht
    simp [qTally, ht]
  · intro expand glob ingest now paths ql h1 h2
    rw [(parseTestsWithQuarantine_run expand glob ingest now paths ql).2]
    simp [h1, h2]

/-- Witness for C3's amended theorem at a concrete error-outcome test and
a concrete passing run. -/
theorem quarantine_error_counted_not_failing_witness :
    qTally ⟨5, 5⟩ none (TestStats.zero, 0, 0) ⟨"c", "n", "error"⟩
      = (⟨1, 0, 0, 0, 1⟩, 0, 0) ∧
    (ParseTestsWithQuarantine some (fun _ => some ["g.xml"])
      (fun _ => some [[⟨"c", "m", "error"⟩, ⟨"c", "k", "error"⟩]])
      ⟨7, 7⟩ ["q"] none).2 = none := by
  constructor
  · exact quarantine_error_counted_not_failing.1 ⟨5, 5⟩ none TestStats.zero
      0 0 ⟨"c", "n", "error"⟩ rfl
  · exact quarantine_error_counted_not_failing.2 some
      (fun _ => some ["g.xml"])
      (fun _ => some [[⟨"c", "m", "error"⟩, ⟨"c", "k", "error"⟩]])
      ⟨7, 7⟩ ["q"] none (by decide) (by decide)

/-- C9: an entry whose `start_date` or `end_date` is present but
unparsable is treated as non-expiring: `isExpired` (a total function —
it cannot fail) returns `false` whenever every entry matching the test
identifier has such a malformed bound. -/
theorem isExpired_malformed_dates (now : Instant) (testIdentifier : String)
    (items : List QItem)
    (h : ∀ e : QEntry, QItem.entry e ∈ items →
      entryMatches testIdentifier e = true →
      ∃ sd ed, e.start_date = some sd ∧ e.end_date = some ed ∧
        (parseDate sd = none ∨ parseDate ed = none)) :
    isExpired now testIdentifier (some items) = false := by
  unfold isExpired
  rw [List.any_eq_false]
  intro it hit
  cases it with
  | notMap => simp
  | entry e =>
    by_cases hm : entryMatches testIdentifier e = true
    · obtain ⟨sd, ed, h1, h2, h3⟩ := h e hit hm
      cases h3 with
      | inl hbad => simp [entryExpired, h1, h2, hbad]
      | inr hbad =>
        cases hsd : parseDate sd with
        | none => simp [entryExpired, h1, h2, hsd]
        | some st => simp [entryExpired, h1, h2, hsd, hbad]
    · simp [hm]

/-- Witness for C9: the only matching entry carries the malformed date
`"2024-99-01"`, and the check reports not-expired. -/
theorem isExpired_malformed_dates_witness :
    isExpired ⟨100, 5⟩ "a.b"
      (some [QItem.entry ⟨some "a", some "b",
        some "2024-99-01", some "2024-01-01"⟩]) = false := by
  apply isExpired_malformed_dates
  intro e he hm
  simp at he
  subst he
  exact ⟨"2024-99-01", "2024-01-01", rfl, rfl, Or.inl (by decide)⟩
